import Mathlib

/-!
# dpanel: listing the files of an exported container image

A shallow embedding of `common/service/docker/image.go`
(`ImageInspectFileList`, `getFileListFromTar`) together with the pieces of the
Go standard library the two functions call (`path.Clean`, `filepath.Join`,
`strings.Cut`, `strings.HasSuffix`, `os.FileMode.String`), followed by the
properties of the listing that are proved about it.

Modelling conventions.

* A Go `string` is a Lean `String`; `<` on strings is the lexicographic order
  in both languages.
* A `*tar.Reader` is the sequence of headers its `Next` method returns,
  followed by the way the sequence ends (`io.EOF` or a read error).
* The payload of an entry of the outer archive is described by what the two
  decoders the code applies make of its bytes: `tar.NewReader` directly, or
  `gzip.NewReader` followed by `tar.NewReader`.
* `sort.Slice` is not stable, so the order it leaves equal elements in is not
  fixed by its contract.  `ImageInspectFileList` therefore takes the sorting
  routine as an argument, and the theorems hold for every routine that
  returns a sorted permutation of its input.
-/

namespace Dpanel

/-! ## Go standard library -/

/-- Go's `<` on strings, on character lists: the first differing character
decides, a proper prefix is smaller. -/
def listLess : List Char → List Char → Bool
  | _, [] => false
  | [], _ :: _ => true
  | a :: as, b :: bs =>
    if a.toNat < b.toNat then true
    else if b.toNat < a.toNat then false
    else listLess as bs

/-- Go's `s < t` on strings. -/
def stringLess (s t : String) : Bool := listLess s.data t.data

/-- Go `strings.HasSuffix(s, suffix)`. -/
def stringsHasSuffix (s suffix : String) : Bool :=
  suffix.data.isSuffixOf s.data

/-- Go `strings.Cut` on character lists: the text before and after the first
occurrence of `sep`, or `none` when `sep` does not occur. -/
def stringsCutList (sep : List Char) : List Char → Option (List Char × List Char)
  | [] => if sep.isEmpty then some ([], []) else none
  | c :: cs =>
    if sep.isPrefixOf (c :: cs) then some ([], (c :: cs).drop sep.length)
    else
      match stringsCutList sep cs with
      | some (before, after) => some (c :: before, after)
      | none => none

/-- Go `strings.Cut(s, sep)`; `none` stands for `found = false`. -/
def stringsCut (s sep : String) : Option (String × String) :=
  match stringsCutList sep.data s.data with
  | some (before, after) => some (String.mk before, String.mk after)
  | none => none

/-- The inner loop of the `..` case of `path.Clean`:
`for out.w > dotdot && out.index(out.w) != '/' { out.w-- }`, started at `w`. -/
def cleanBacktrack (buf : List Char) (dotdot : Nat) : Nat → Nat
  | 0 => 0
  | w + 1 =>
    if w + 1 > dotdot && buf.getD (w + 1) '/' != '/' then cleanBacktrack buf dotdot w
    else w + 1

/-- The main loop of Go `path.Clean`.  `rest` is `path[r:]`, `out` the bytes
written so far (`out.w = out.length`), `dotdot` the index where `..` must stop.
Every round consumes at least one character of `rest`, so `rest.length` rounds
are enough. -/
def cleanLoop (rooted : Bool) : Nat → List Char → List Char → Nat → List Char
  | 0, _, out, _ => out
  | fuel + 1, rest, out, dotdot =>
    match rest with
    | [] => out
    | c :: cs =>
      if c = '/' then
        -- empty path element
        cleanLoop rooted fuel cs out dotdot
      else if c = '.' && (cs.isEmpty || cs.head? = some '/') then
        -- . element
        cleanLoop rooted fuel cs out dotdot
      else if c = '.' && cs.head? = some '.' &&
          (cs.tail.isEmpty || cs.tail.head? = some '/') then
        -- .. element: remove to last /
        if out.length > dotdot then
          cleanLoop rooted fuel cs.tail
            (out.take (cleanBacktrack out dotdot (out.length - 1))) dotdot
        else if !rooted then
          let out1 := if out.length > 0 then out ++ ['/'] else out
          let out2 := out1 ++ ['.', '.']
          cleanLoop rooted fuel cs.tail out2 out2.length
        else
          cleanLoop rooted fuel cs.tail out dotdot
      else
        -- real path element: add slash if needed, copy element
        let out1 :=
          if (rooted && out.length != 1) || (!rooted && out.length != 0) then out ++ ['/']
          else out
        cleanLoop rooted fuel ((c :: cs).dropWhile (fun x => x != '/'))
          (out1 ++ (c :: cs).takeWhile (fun x => x != '/')) dotdot

/-- Go `path.Clean` (and `filepath.Clean` on a system whose separator is `/`). -/
def pathClean (path : String) : String :=
  if path = "" then "."
  else
    let rooted := path.data.head? = some '/'
    let out :=
      if rooted then cleanLoop true path.data.length path.data.tail ['/'] 1
      else cleanLoop false path.data.length path.data [] 0
    if out.length = 0 then "." else String.mk out

/-- Go `filepath.Join`: the elements from the first non-empty one on, joined
with `/` and cleaned. -/
def filepathJoin : List String → String
  | [] => ""
  | e :: es =>
    if e ≠ "" then pathClean (String.intercalate "/" (e :: es)) else filepathJoin es

/-- Go `os.FileMode.String`: the letters of the set high bits (or `-`), then
the nine permission bits. -/
def fileModeString (m : Nat) : String :=
  let high := (List.range 13).filterMap fun i =>
    if m.testBit (31 - i) then "dalTLDpSugct?".data.get? i else none
  let low := (List.range 9).map fun i =>
    if m.testBit (8 - i) then "rwxrwxrwx".data.getD i '-' else '-'
  String.mk ((if high.isEmpty then ['-'] else high) ++ low)

/-- Go `fmt.Sprintf("%d", n)` for an integer. -/
def sprintfD (n : Int) : String := toString n

/-! ## `github.com/mcuadros/go-version` -/

/-- Go `strings.Split(s, ".")` on character lists. -/
def splitDots : List Char → List (List Char)
  | [] => [[]]
  | c :: cs =>
    match splitDots cs with
    | [] => [[]]
    | seg :: segs => if c = '.' then [] :: seg :: segs else (c :: seg) :: segs

/-- The library's `numVersion`: the value of one dot-separated component. An
empty component counts 0, a decimal number its value, anything else the
library's `unknownForm`, -7. -/
def numVersion (value : List Char) : Int :=
  if value.isEmpty then 0
  else if value.all Char.isDigit then
    (value.foldl (fun n c => 10 * n + (c.toNat - 48)) 0 : Nat)
  else -7

/-- The rounds of the library's `CompareSimple` in which only one version
still has components: a missing component counts 0, and `sign` is the result
when the present component is positive. -/
def compareRest (sign : Int) : List (List Char) → Int
  | [] => 0
  | a :: as =>
    if numVersion a < 0 then -sign
    else if 0 < numVersion a then sign
    else compareRest sign as

/-- The library's `CompareSimple` on the component lists: the sign of the
first difference. -/
def compareSimple : List (List Char) → List (List Char) → Int
  | [], bs => compareRest (-1) bs
  | a :: as, [] => compareRest 1 (a :: as)
  | a :: as, b :: bs =>
    if a = b then compareSimple as bs
    else if numVersion a < numVersion b then -1
    else if numVersion b < numVersion a then 1
    else compareSimple as bs

/-- Modelled from the spec: `version.Compare` belongs to the external library
go-version, which is not part of the sources. The spec asks for "a single
semantic-version-compare capability"; the model splits both versions at the
dots and compares them component by component as the library's
`CompareSimple` does. -/
def versionCompare (version1 version2 operator : String) : Bool :=
  let c := compareSimple (splitDots version1.data) (splitDots version2.data)
  if operator = ">" ∨ operator = "gt" then decide (0 < c)
  else if operator = ">=" ∨ operator = "ge" then decide (0 ≤ c)
  else if operator = "<=" ∨ operator = "le" then decide (c ≤ 0)
  else if operator = "==" ∨ operator = "=" ∨ operator = "eq" then decide (c = 0)
  else if operator = "<>" ∨ operator = "!=" ∨ operator = "ne" then decide (c ≠ 0)
  else if operator = "" ∨ operator = "<" ∨ operator = "lt" then decide (c < 0)
  else false

/-! ## `common/function` -/

/-- Modelled from the spec: `function.InArray` lives in `common/function`,
which is not part of the sources. The spec uses it for "the entry's name
matches one of the expected blob paths" and for the test whether a path has
been seen: membership of `item` in `v`. -/
def InArray {T : Type} [DecidableEq T] : List T → T → Bool
  | [], _ => false
  | t :: ts, item => if t = item then true else InArray ts item

/-- Modelled from the spec: `function.PluckArrayWalk` lives in
`common/function`, which is not part of the sources. It walks `v` in order,
calls `walk` on every element and keeps the results for which `walk` answers
`true`. The callback is a Go closure that may update captured variables; they
are the state `s` threaded through the walk. -/
def PluckArrayWalkState {S T R : Type} (walk : S → T → (R × Bool) × S) :
    List T → S → List R × S
  | [], s => ([], s)
  | item :: rest, s =>
    match walk s item with
    | ((k, true), s1) =>
      let (result, s2) := PluckArrayWalkState walk rest s1
      (k :: result, s2)
    | ((_, false), s1) => PluckArrayWalkState walk rest s1

/-- The walk `function.PluckArrayWalk` for a callback without captured state. -/
def PluckArrayWalk {T R : Type} (v : List T) (walk : T → R × Bool) : List R :=
  (PluckArrayWalkState (fun (s : Unit) i => (walk i, s)) v ()).1

/-! ## Data model -/

/-- The fields of `tar.Header` the listing reads. -/
structure Header where
  Typeflag : Nat
  Name : String
  Linkname : String
  Size : Int
  Mode : Int
  Uid : Int
  Gid : Int
  ModTime : Int
deriving DecidableEq, Repr

/-- Go `tar.TypeReg`, `'0'`. -/
def TypeReg : Nat := 48

/-- Go `tar.TypeLink`, `'1'`: a hard link. -/
def TypeLink : Nat := 49

/-- Go `tar.TypeSymlink`, `'2'`. -/
def TypeSymlink : Nat := 50

/-- Go `tar.TypeDir`, `'5'`. -/
def TypeDir : Nat := 53

/-- Go `tar.TypeXHeader`, `'x'`. -/
def TypeXHeader : Nat := 120

/-- Go `tar.TypeXGlobalHeader`, `'g'`. -/
def TypeXGlobalHeader : Nat := 103

/-- The record `fs.FileData` of `common/types/fs`, with the fields
`getFileListFromTar` fills in. `Change` holds `fs.ChangeDefault`. -/
structure FileData where
  Path : String
  Name : String
  Mod : Nat
  ModStr : String
  ModTime : Int
  Change : String
  Size : Int
  User : String
  Group : String
  LinkName : String
  IsDir : Bool
  IsSymlink : Bool
deriving DecidableEq, Repr

/-- The constant `fs.ChangeDefault`. -/
def ChangeDefault : String := "default"

/-- How the sequence of headers of a tar stream ends: `io.EOF`, or an error
of the reader (corrupt header, truncated payload, corrupt compressed data). -/
inductive StreamEnd where
  | eof
  | failed (err : String)
deriving DecidableEq, Repr

/-- A `*tar.Reader`: the headers `Next` returns and the way they end. -/
structure TarReader where
  headers : List Header
  ending : StreamEnd
deriving DecidableEq, Repr

/-- The bytes of one entry of the outer archive, seen through the decoders
the code applies to them: `tar` is `tar.NewReader` over the raw bytes, `gzip`
is `gzip.NewReader` over the raw bytes (an error when the gzip header is not
readable) followed by `tar.NewReader` over the decompressed stream. -/
structure Payload where
  tar : TarReader
  gzip : Except String TarReader

/-- One entry of the outer archive: the name in its header and its bytes. -/
structure OuterEntry where
  Name : String
  payload : Payload

/-- The part of the `ImageInspect` answer the listing reads:
`RootFS.Layers`. -/
structure ImageInfo where
  Layers : List String

/-- The Docker client, as far as `ImageInspectFileList` calls it.
`ServerVersion` is the `Version` field of the answer (the code drops the
error). `ImageSave` returns Go's pair `(out, err)`; `out` is `none` for a nil
reader, otherwise the entries the outer `tar.Reader` returns before its first
error or end of stream. -/
structure Client where
  ImageInspect : String → Except String ImageInfo
  ServerVersion : String
  ImageSave : List String → Option (List OuterEntry) × Option String

/-- The ways a call of `ImageInspectFileList` ends. -/
inductive Outcome (α : Type) where
  /-- The call returns the value and a nil error. -/
  | ok (v : α)
  /-- The call returns a non-nil error. -/
  | error (err : String)
  /-- The call does not return: reading through a nil `io.Reader` raises a
  run-time panic. -/
  | nilDeref
deriving DecidableEq, Repr

/-! ## `getFileListFromTar` -/

/-- The loop of `getFileListFromTar` over the headers still to come, `files`
being the records appended so far. -/
def getFileListFromTarLoop : List Header → StreamEnd → List FileData →
    Except String (List FileData)
  | [], StreamEnd.eof, files => .ok files
  | [], StreamEnd.failed err, _ => .error err
  | header :: rest, ending, files =>
    -- always ensure relative path notations are not parsed as part of the filename
    let name := pathClean header.Name
    if name = "." then getFileListFromTarLoop rest ending files
    else if header.Typeflag = TypeXGlobalHeader then
      .error ("unexptected tar file: (XGlobalHeader): type=" ++
        toString header.Typeflag ++ " name=" ++ name)
    else if header.Typeflag = TypeXHeader then
      .error ("unexptected tar file (XHeader): type=" ++
        toString header.Typeflag ++ " name=" ++ name)
    else
      getFileListFromTarLoop rest ending (files ++ [{
        Path := filepathJoin ["/", header.Name]
        Name := filepathJoin ["/", header.Name]
        Mod := (header.Mode % 4294967296).toNat
        ModStr := fileModeString (header.Mode % 4294967296).toNat
        ModTime := header.ModTime
        Change := ChangeDefault
        Size := header.Size
        User := sprintfD header.Uid
        Group := sprintfD header.Gid
        LinkName := header.Linkname
        IsDir := decide (header.Typeflag = TypeDir)
        IsSymlink := false }])

/-- The function `getFileListFromTar`. -/
def getFileListFromTar (tarReader : TarReader) : Except String (List FileData) :=
  getFileListFromTarLoop tarReader.headers tarReader.ending []

/-! ## `ImageInspectFileList` -/

/-- The callback that turns a layer digest into its blob path. -/
def layerBlobPath (i : String) : String × Bool :=
  match stringsCut i "sha256:" with
  | some (_, after) => ("blobs/sha256/" ++ after, true)
  | none => ("", false)

/-- The `for` loop of `ImageInspectFileList` over the entries of the outer
archive; `pathInfo` holds the records appended so far. An error is the
`return nil, nil, err` inside the loop. -/
def walkArchive (dockerVersion : String) (layers : List String) :
    List OuterEntry → List FileData → Except String (List FileData)
  | [], pathInfo => .ok pathInfo
  | header :: rest, pathInfo =>
    if versionCompare dockerVersion "25" ">=" && InArray layers header.Name then
      match getFileListFromTar header.payload.tar with
      | .error _ => walkArchive dockerVersion layers rest pathInfo
      | .ok tarFileList => walkArchive dockerVersion layers rest (pathInfo ++ tarFileList)
    else if stringsHasSuffix header.Name ".tar" then
      match getFileListFromTar header.payload.tar with
      | .error _ => walkArchive dockerVersion layers rest pathInfo
      | .ok tarFileList => walkArchive dockerVersion layers rest (pathInfo ++ tarFileList)
    else if stringsHasSuffix header.Name ".tar.gz" || stringsHasSuffix header.Name "tgz" then
      match header.payload.gzip with
      | .error err => .error err
      | .ok gzReader =>
        match getFileListFromTar gzReader with
        | .error _ => walkArchive dockerVersion layers rest pathInfo
        | .ok tarFileList => walkArchive dockerVersion layers rest (pathInfo ++ tarFileList)
    else walkArchive dockerVersion layers rest (pathInfo ++ [])

/-- The comparison of the first `sort.Slice` call. -/
def lessDirFirst (a b : FileData) : Bool := a.IsDir && !b.IsDir

/-- The comparison of the second `sort.Slice` call. -/
def lessDirName (a b : FileData) : Bool :=
  if a.IsDir != b.IsDir then a.IsDir else stringLess a.Name b.Name

/-- The callback of the deduplication walk; the captured variable `path` is
the state. -/
def dedupWalk (path : List String) (i : FileData) : (Option FileData × Bool) × List String :=
  if InArray path i.Name then ((none, false), path)
  else ((some i, true), path ++ [i.Name])

/-- The function `ImageInspectFileList`, for a sorting routine `sortSlice`
standing for `sort.Slice`. -/
def ImageInspectFileList (sortSlice : (FileData → FileData → Bool) → List FileData → List FileData)
    (self : Client) (imageID : String) : Outcome (List FileData × List String) :=
  match self.ImageInspect imageID with
  | .error err => .error err
  | .ok imageInfo =>
    let dockerVersion := self.ServerVersion
    let layers := PluckArrayWalk imageInfo.Layers layerBlobPath
    match (self.ImageSave [imageID]).1 with
    | none => .nilDeref
    | some out =>
      match walkArchive dockerVersion layers out [] with
      | .error err => .error err
      | .ok pathInfo =>
        let sorted1 := sortSlice lessDirFirst pathInfo
        let sorted2 := sortSlice lessDirName sorted1
        let (kept, path) := PluckArrayWalkState dedupWalk sorted2 []
        -- the kept elements are non-nil pointers; `filterMap id` reads the records
        .ok (kept.filterMap id, path)

/-! ## Notions used in the statements -/

/-- The record `getFileListFromTar` builds from one header. -/
def headerRecord (header : Header) : FileData where
  Path := filepathJoin ["/", header.Name]
  Name := filepathJoin ["/", header.Name]
  Mod := (header.Mode % 4294967296).toNat
  ModStr := fileModeString (header.Mode % 4294967296).toNat
  ModTime := header.ModTime
  Change := ChangeDefault
  Size := header.Size
  User := sprintfD header.Uid
  Group := sprintfD header.Gid
  LinkName := header.Linkname
  IsDir := decide (header.Typeflag = TypeDir)
  IsSymlink := false

/-- The records the deduplication walk keeps from `l` when the names in
`seen` have been met already. -/
def dedupFrom : List FileData → List String → List FileData
  | [], _ => []
  | i :: rest, seen =>
    if InArray seen i.Name then dedupFrom rest seen
    else i :: dedupFrom rest (seen ++ [i.Name])

/-- Whether the loop of `getFileListFromTar` reaches the type switch for the
header: its cleaned name is not `"."`. -/
def keepsHeader (header : Header) : Bool := decide (pathClean header.Name ≠ ".")

/-- Whether the header is one of the two extended-header types. -/
def isExtendedHeader (header : Header) : Bool :=
  decide (header.Typeflag = TypeXGlobalHeader) || decide (header.Typeflag = TypeXHeader)

/-- The error `getFileListFromTar` returns for an extended header. -/
def extendedHeaderError (header : Header) : String :=
  if header.Typeflag = TypeXGlobalHeader then
    "unexptected tar file: (XGlobalHeader): type=" ++ toString header.Typeflag ++
      " name=" ++ pathClean header.Name
  else
    "unexptected tar file (XHeader): type=" ++ toString header.Typeflag ++
      " name=" ++ pathClean header.Name

/-- The tar reader the loop of `ImageInspectFileList` opens over an entry of
the outer archive: `none` when the entry is not a layer payload, an error when
`gzip.NewReader` fails. -/
def entryReader (dockerVersion : String) (layers : List String) (header : OuterEntry) :
    Option (Except String TarReader) :=
  if versionCompare dockerVersion "25" ">=" && InArray layers header.Name then
    some (.ok header.payload.tar)
  else if stringsHasSuffix header.Name ".tar" then some (.ok header.payload.tar)
  else if stringsHasSuffix header.Name ".tar.gz" || stringsHasSuffix header.Name "tgz" then
    some header.payload.gzip
  else none

/-- What one round of the loop does with an entry: the records it appends to
`pathInfo` (none when the entry is skipped), or the error it returns. -/
def entryFiles (dockerVersion : String) (layers : List String) (header : OuterEntry) :
    Except String (List FileData) :=
  match entryReader dockerVersion layers header with
  | none => .ok []
  | some (.error err) => .error err
  | some (.ok reader) =>
    match getFileListFromTar reader with
    | .error _ => .ok []
    | .ok tarFileList => .ok tarFileList

/-- The records an entry contributes to the listing. -/
def entryRecords (dockerVersion : String) (layers : List String) (header : OuterEntry) :
    List FileData :=
  match entryFiles dockerVersion layers header with
  | .ok tarFileList => tarFileList
  | .error _ => []

/-- The contract of one `sort.Slice` call with comparison `less`: the output
is a permutation of the input in which no element is `less` than an earlier
one. Which of the permutations with this property is returned is left open. -/
def SortsBy (less : FileData → FileData → Bool) (input output : List FileData) : Prop :=
  output.Perm input ∧ output.Pairwise (fun a b => less b a = false)

/-- A sorting routine that meets the contract of `sort.Slice` for the two
comparisons of `ImageInspectFileList`. -/
def SortSliceSpec
    (sortSlice : (FileData → FileData → Bool) → List FileData → List FileData) : Prop :=
  ∀ l, SortsBy lessDirFirst l (sortSlice lessDirFirst l) ∧
    SortsBy lessDirName l (sortSlice lessDirName l)

/-- One sorting routine that meets the contract: insertion sort. -/
def insertionSortSlice (less : FileData → FileData → Bool) (l : List FileData) :
    List FileData :=
  l.insertionSort (fun a b => less b a = false)

/-- The client `self` with the export stream replaced by the archive `out`. -/
def withArchive (self : Client) (out : List OuterEntry) : Client where
  ImageInspect := self.ImageInspect
  ServerVersion := self.ServerVersion
  ImageSave := fun _ => (some out, none)

/-- A hexadecimal digit, as in the hex part of a layer digest. -/
def isHexDigit (c : Char) : Bool :=
  c.isDigit || (decide (97 ≤ c.toNat) && decide (c.toNat ≤ 102)) ||
    (decide (65 ≤ c.toNat) && decide (c.toNat ≤ 70))

/-! ## Concrete inputs -/

/-- A header of a regular file. -/
def regularFile (name : String) (size : Int) : Header where
  Typeflag := TypeReg
  Name := name
  Linkname := ""
  Size := size
  Mode := 420
  Uid := 0
  Gid := 0
  ModTime := 0

/-- A header of a directory. -/
def directory (name : String) : Header where
  Typeflag := TypeDir
  Name := name
  Linkname := ""
  Size := 0
  Mode := 493
  Uid := 0
  Gid := 0
  ModTime := 0

/-- The bytes of a well-formed uncompressed tar file with the given headers;
they do not start with a gzip header. -/
def tarPayload (headers : List Header) : Payload where
  tar := { headers := headers, ending := StreamEnd.eof }
  gzip := .error "gzip: invalid header"

/-- A client that answers every request with the given layer digests, server
version and exported archive. -/
def clientOf (layers : List String) (version : String) (out : List OuterEntry) : Client where
  ImageInspect := fun _ => .ok { Layers := layers }
  ServerVersion := version
  ImageSave := fun _ => (some out, none)

/-- The first layer of the two-layer scenario. -/
def scenarioLayer1 : OuterEntry where
  Name := "layer1.tar"
  payload := tarPayload [regularFile "etc/passwd" 100, directory "etc"]

/-- The second layer of the two-layer scenario. -/
def scenarioLayer2 : OuterEntry where
  Name := "layer2.tar"
  payload := tarPayload [regularFile "etc/passwd" 200, directory "var"]

/-- The archive of the two-layer scenario: `layer1.tar` with the file
`etc/passwd` and the directory `etc`, `layer2.tar` with a file `etc/passwd` of
another size and the directory `var`. -/
def scenarioArchive : List OuterEntry := [scenarioLayer1, scenarioLayer2]

/-- The client of the two-layer scenario. -/
def scenarioClient : Client := clientOf [] "24.0.0" scenarioArchive

/-- The record list of the two-layer scenario: the two directories, then the
file `/etc/passwd` once. -/
def scenarioListing : List FileData :=
  [headerRecord (directory "etc"), headerRecord (directory "var"),
    headerRecord (regularFile "etc/passwd" 100)]

/-- The path list of the two-layer scenario. -/
def scenarioPaths : List String := ["/etc", "/var", "/etc/passwd"]

/-- The records the walk collects in the two-layer scenario, in the order of
the layers. -/
def scenarioCollected : List FileData :=
  [headerRecord (regularFile "etc/passwd" 100), headerRecord (directory "etc"),
    headerRecord (regularFile "etc/passwd" 200), headerRecord (directory "var")]

/-- A header of the type "global extended header". -/
def globalExtendedHeader (name : String) : Header where
  Typeflag := TypeXGlobalHeader
  Name := name
  Linkname := ""
  Size := 52
  Mode := 438
  Uid := 0
  Gid := 0
  ModTime := 0

/-- A layer that starts with a global extended header. -/
def paxLayer : OuterEntry where
  Name := "layer.tar"
  payload := tarPayload [globalExtendedHeader "pax_global_header", regularFile "etc/passwd" 100]

/-- An archive whose only layer starts with a global extended header. -/
def paxArchive : List OuterEntry := [paxLayer]

/-- A gzip-compressed layer whose gzip header opens and whose stream is
corrupt after the first tar header. -/
def corruptGzipLayer : OuterEntry where
  Name := "broken.tgz"
  payload :=
    { tar := { headers := [], ending := StreamEnd.failed "archive/tar: invalid tar header" }
      gzip := .ok { headers := [regularFile "usr/bin/tool" 4096],
                    ending := StreamEnd.failed "gzip: invalid checksum" } }

/-- A layer stored as a bare tar blob under the digest `sha256:ab12`. -/
def blobLayer : OuterEntry where
  Name := "blobs/sha256/ab12"
  payload := tarPayload [directory "etc", regularFile "etc/hostname" 12]

/-- A header of a symbolic link. -/
def symbolicLink (name target : String) : Header where
  Typeflag := TypeSymlink
  Name := name
  Linkname := target
  Size := 0
  Mode := 511
  Uid := 0
  Gid := 0
  ModTime := 0

/-- A header of a hard link. -/
def hardLink (name target : String) : Header where
  Typeflag := TypeLink
  Name := name
  Linkname := target
  Size := 0
  Mode := 420
  Uid := 0
  Gid := 0
  ModTime := 0

/-- An outer entry that is no layer, named `footgz`; its bytes are neither a
tar stream nor a gzip stream. -/
def footgzEntry : OuterEntry where
  Name := "footgz"
  payload :=
    { tar := { headers := [], ending := StreamEnd.failed "archive/tar: invalid tar header" }
      gzip := .error "gzip: invalid header" }

/-- A client whose `ImageSave` fails: it returns a nil reader and an error. -/
def saveFailsClient : Client where
  ImageInspect := fun _ => .ok { Layers := [] }
  ServerVersion := "24.0.0"
  ImageSave := fun _ => (none, some "Error response from daemon: reference does not exist")

/-- A client whose `ImageInspect` fails. -/
def inspectFailsClient : Client where
  ImageInspect := fun _ => .error "Error response from daemon: No such image: img"
  ServerVersion := "24.0.0"
  ImageSave := fun _ => (some scenarioArchive, none)

/-! ## Lemmas on the embedding -/

theorem listLess_iff : ∀ (s t : List Char), listLess s t = true ↔ s < t
  | _, [] => by
    simp only [listLess]
    constructor
    · intro h; cases h
    · intro h; exact absurd h (List.Lex.not_nil_right _ _)
  | [], b :: bs => by
    simp only [listLess, true_iff]
    exact List.nil_lt_cons b bs
  | a :: as, b :: bs => by
    have ih := listLess_iff as bs
    have hlt : ∀ x y : Char, x.toNat < y.toNat ↔ x < y := fun x y => Iff.rfl
    simp only [listLess]
    by_cases h1 : a.toNat < b.toNat
    · simp only [h1, if_true, true_iff]
      exact List.Lex.rel ((hlt a b).1 h1)
    · by_cases h2 : b.toNat < a.toNat
      · simp only [h1, h2, if_false, if_true]
        constructor
        · intro h; cases h
        · intro h
          exfalso
          have h3 : b < a := (hlt b a).1 h2
          have : (b :: bs) < (a :: as) := List.Lex.rel h3
          exact lt_asymm h this
      · have hab : a = b := by
          apply Char.ext
          apply UInt32.ext
          exact Nat.le_antisymm (Nat.not_lt.1 h2) (Nat.not_lt.1 h1)
        subst hab
        simp only [h1, if_false, ih]
        exact List.Lex.cons_iff.symm

theorem stringLess_iff (s t : String) : stringLess s t = true ↔ s < t := by
  rw [String.lt_iff_toList_lt]
  exact listLess_iff s.data t.data

theorem InArray_iff {T : Type} [DecidableEq T] (v : List T) (item : T) :
    InArray v item = true ↔ item ∈ v := by
  induction v with
  | nil => simp [InArray]
  | cons t ts ih =>
    by_cases h : t = item
    · simp [InArray, h]
    · simp only [InArray, h, if_false, ih, List.mem_cons]
      constructor
      · intro hm; exact Or.inr hm
      · intro hm
        rcases hm with hm | hm
        · exact absurd hm.symm h
        · exact hm

theorem dedup_eq (l : List FileData) (path : List String) :
    PluckArrayWalkState dedupWalk l path =
      ((dedupFrom l path).map some, path ++ (dedupFrom l path).map FileData.Name) := by
  induction l generalizing path with
  | nil => simp [PluckArrayWalkState, dedupFrom]
  | cons i rest ih =>
    by_cases h : InArray path i.Name = true
    · simp [PluckArrayWalkState, dedupFrom, dedupWalk, h, ih]
    · simp [PluckArrayWalkState, dedupFrom, dedupWalk, h, ih]

theorem dedupFrom_sublist (l : List FileData) (seen : List String) :
    (dedupFrom l seen).Sublist l := by
  induction l generalizing seen with
  | nil => simp [dedupFrom]
  | cons i rest ih =>
    by_cases h : InArray seen i.Name = true
    · simp only [dedupFrom, h, if_true]
      exact (ih seen).cons i
    · have hf : InArray seen i.Name = false := by simpa using h
      simp only [dedupFrom, hf, Bool.false_eq_true, if_false]
      exact (ih _).cons₂ i

theorem mem_dedupFrom_names (l : List FileData) (seen : List String) (n : String) :
    n ∈ (dedupFrom l seen).map FileData.Name ↔ n ∈ l.map FileData.Name ∧ n ∉ seen := by
  induction l generalizing seen with
  | nil => simp [dedupFrom]
  | cons i rest ih =>
    by_cases h : InArray seen i.Name = true
    · have hm : i.Name ∈ seen := (InArray_iff _ _).1 h
      simp only [dedupFrom, h, if_true, ih, List.map_cons, List.mem_cons]
      constructor
      · rintro ⟨h1, h2⟩; exact ⟨Or.inr h1, h2⟩
      · rintro ⟨h1 | h1, h2⟩
        · exact absurd (h1 ▸ hm) h2
        · exact ⟨h1, h2⟩
    · have hm : i.Name ∉ seen := fun hc => h ((InArray_iff _ _).2 hc)
      have hf : InArray seen i.Name = false := by simpa using h
      simp only [dedupFrom, hf, Bool.false_eq_true, if_false, List.map_cons, List.mem_cons, ih,
        List.mem_append, List.mem_singleton, not_or, List.not_mem_nil, or_false]
      constructor
      · rintro (h1 | ⟨h1, h2, _⟩)
        · exact ⟨Or.inl h1, h1 ▸ hm⟩
        · exact ⟨Or.inr h1, h2⟩
      · rintro ⟨h1 | h1, h2⟩
        · exact Or.inl h1
        · by_cases hn : n = i.Name
          · exact Or.inl hn
          · exact Or.inr ⟨h1, h2, hn⟩

theorem dedupFrom_nodup (l : List FileData) (seen : List String) :
    ((dedupFrom l seen).map FileData.Name).Nodup := by
  induction l generalizing seen with
  | nil => simp [dedupFrom]
  | cons i rest ih =>
    by_cases h : InArray seen i.Name = true
    · simp only [dedupFrom, h, if_true]
      exact ih seen
    · have hf : InArray seen i.Name = false := by simpa using h
      simp only [dedupFrom, hf, Bool.false_eq_true, if_false, List.map_cons, List.nodup_cons]
      refine ⟨?_, ih _⟩
      intro hc
      have := ((mem_dedupFrom_names rest (seen ++ [i.Name]) i.Name).1 hc).2
      exact this (by simp)

theorem dedupFrom_first (l : List FileData) (seen : List String) (r : FileData)
    (hr : r ∈ dedupFrom l seen) :
    l.find? (fun x => decide (x.Name = r.Name)) = some r := by
  induction l generalizing seen with
  | nil => simp [dedupFrom] at hr
  | cons i rest ih =>
    by_cases h : InArray seen i.Name = true
    · simp only [dedupFrom, h, if_true] at hr
      have hm : i.Name ∈ seen := (InArray_iff _ _).1 h
      have hrn : r.Name ∉ seen :=
        ((mem_dedupFrom_names rest seen r.Name).1 (List.mem_map_of_mem _ hr)).2
      have hne : i.Name ≠ r.Name := fun hc => hrn (hc ▸ hm)
      simp only [List.find?_cons, hne, decide_False]
      exact ih seen hr
    · have hf : InArray seen i.Name = false := by simpa using h
      simp only [dedupFrom, hf, Bool.false_eq_true, if_false, List.mem_cons] at hr
      rcases hr with hr | hr
      · subst hr
        simp [List.find?_cons]
      · have hrn : r.Name ∉ seen ++ [i.Name] :=
          ((mem_dedupFrom_names rest _ r.Name).1 (List.mem_map_of_mem _ hr)).2
        have hne : i.Name ≠ r.Name := fun hc => hrn (by simp [hc])
        simp only [List.find?_cons, hne, decide_False]
        exact ih _ hr

theorem loop_cons_skip (header : Header) (rest : List Header) (ending : StreamEnd)
    (files : List FileData) (h : keepsHeader header = false) :
    getFileListFromTarLoop (header :: rest) ending files =
      getFileListFromTarLoop rest ending files := by
  have h1 : pathClean header.Name = "." := by simpa [keepsHeader] using h
  simp [getFileListFromTarLoop, h1]

theorem loop_cons_extended (header : Header) (rest : List Header) (ending : StreamEnd)
    (files : List FileData) (h : keepsHeader header = true)
    (hx : isExtendedHeader header = true) :
    getFileListFromTarLoop (header :: rest) ending files =
      .error (extendedHeaderError header) := by
  have h1 : pathClean header.Name ≠ "." := by simpa [keepsHeader] using h
  simp only [isExtendedHeader, Bool.or_eq_true, decide_eq_true_eq] at hx
  by_cases hg : header.Typeflag = TypeXGlobalHeader
  · simp [getFileListFromTarLoop, h1, hg, extendedHeaderError]
  · have hxh : header.Typeflag = TypeXHeader := by
      rcases hx with hx | hx
      · exact absurd hx hg
      · exact hx
    have hne : TypeXHeader ≠ TypeXGlobalHeader := by decide
    simp [getFileListFromTarLoop, h1, hxh, hne, extendedHeaderError]

theorem loop_cons_record (header : Header) (rest : List Header) (ending : StreamEnd)
    (files : List FileData) (h : keepsHeader header = true)
    (hx : isExtendedHeader header = false) :
    getFileListFromTarLoop (header :: rest) ending files =
      getFileListFromTarLoop rest ending (files ++ [headerRecord header]) := by
  have h1 : pathClean header.Name ≠ "." := by simpa [keepsHeader] using h
  simp only [isExtendedHeader, Bool.or_eq_false_iff, decide_eq_false_iff_not] at hx
  simp [getFileListFromTarLoop, h1, hx.1, hx.2, headerRecord]

/-- A successful run of the loop returns the records of the headers it keeps,
in order, after the records it started with. -/
theorem loop_ok (headers : List Header) (ending : StreamEnd) (files out : List FileData)
    (h : getFileListFromTarLoop headers ending files = .ok out) :
    out = files ++ (headers.filter keepsHeader).map headerRecord ∧
      ending = StreamEnd.eof ∧
      ∀ x ∈ headers, keepsHeader x = true → isExtendedHeader x = false := by
  induction headers generalizing files with
  | nil =>
    cases ending with
    | eof =>
      simp only [getFileListFromTarLoop, Except.ok.injEq] at h
      simp [h]
    | failed err => simp [getFileListFromTarLoop] at h
  | cons header rest ih =>
    cases hk : keepsHeader header with
    | false =>
      rw [loop_cons_skip header rest ending files hk] at h
      obtain ⟨h1, h2, h3⟩ := ih files h
      refine ⟨by simp [List.filter_cons, hk, h1], h2, ?_⟩
      intro x hx hkx
      rcases List.mem_cons.1 hx with hx | hx
      · subst hx; rw [hk] at hkx; cases hkx
      · exact h3 x hx hkx
    | true =>
      cases hx : isExtendedHeader header with
      | true =>
        rw [loop_cons_extended header rest ending files hk hx] at h
        cases h
      | false =>
        rw [loop_cons_record header rest ending files hk hx] at h
        obtain ⟨h1, h2, h3⟩ := ih _ h
        refine ⟨by simp [List.filter_cons, hk, h1], h2, ?_⟩
        intro x hxm hkx
        rcases List.mem_cons.1 hxm with hxm | hxm
        · subst hxm; exact hx
        · exact h3 x hxm hkx

/-- The loop succeeds on a stream that ends with `io.EOF` and whose kept
headers are not extended headers. -/
theorem loop_ok_of (headers : List Header) (files : List FileData)
    (h : ∀ x ∈ headers, keepsHeader x = true → isExtendedHeader x = false) :
    getFileListFromTarLoop headers StreamEnd.eof files =
      .ok (files ++ (headers.filter keepsHeader).map headerRecord) := by
  induction headers generalizing files with
  | nil => simp [getFileListFromTarLoop]
  | cons header rest ih =>
    have hrest : ∀ x ∈ rest, keepsHeader x = true → isExtendedHeader x = false :=
      fun x hx => h x (List.mem_cons_of_mem _ hx)
    cases hk : keepsHeader header with
    | false =>
      rw [loop_cons_skip header rest _ files hk, ih files hrest]
      simp [List.filter_cons, hk]
    | true =>
      have hx := h header (List.mem_cons_self _ _) hk
      rw [loop_cons_record header rest _ files hk hx, ih _ hrest]
      simp [List.filter_cons, hk]

/-- A stream that ends with a read error makes the loop fail, whatever was
read before. -/
theorem loop_failed (headers : List Header) (err : String) (files : List FileData) :
    ∃ e, getFileListFromTarLoop headers (StreamEnd.failed err) files = .error e := by
  induction headers generalizing files with
  | nil => exact ⟨err, by simp [getFileListFromTarLoop]⟩
  | cons header rest ih =>
    cases hk : keepsHeader header with
    | false =>
      rw [loop_cons_skip header rest _ files hk]
      exact ih files
    | true =>
      cases hx : isExtendedHeader header with
      | true => exact ⟨_, loop_cons_extended header rest _ files hk hx⟩
      | false =>
        rw [loop_cons_record header rest _ files hk hx]
        exact ih _

/-- The loop stops with the extended-header error at the first kept extended
header. -/
theorem loop_extended (before : List Header) (header : Header) (after : List Header)
    (ending : StreamEnd) (files : List FileData)
    (hbefore : ∀ x ∈ before, keepsHeader x = true → isExtendedHeader x = false)
    (hk : keepsHeader header = true) (hx : isExtendedHeader header = true) :
    getFileListFromTarLoop (before ++ header :: after) ending files =
      .error (extendedHeaderError header) := by
  induction before generalizing files with
  | nil => exact loop_cons_extended header after ending files hk hx
  | cons b rest ih =>
    have hrest : ∀ x ∈ rest, keepsHeader x = true → isExtendedHeader x = false :=
      fun x hx => hbefore x (List.mem_cons_of_mem _ hx)
    cases hkb : keepsHeader b with
    | false =>
      rw [List.cons_append, loop_cons_skip b _ ending files hkb]
      exact ih files hrest
    | true =>
      have hxb := hbefore b (List.mem_cons_self _ _) hkb
      rw [List.cons_append, loop_cons_record b _ ending files hkb hxb]
      exact ih _ hrest

theorem walkArchive_cons (v : String) (layers : List String) (header : OuterEntry)
    (rest : List OuterEntry) (pathInfo : List FileData) :
    walkArchive v layers (header :: rest) pathInfo =
      match entryFiles v layers header with
      | .error err => .error err
      | .ok tarFileList => walkArchive v layers rest (pathInfo ++ tarFileList) := by
  unfold entryFiles entryReader
  rw [walkArchive]
  split_ifs
  · cases hg : getFileListFromTar header.payload.tar <;> simp [hg]
  · cases hg : getFileListFromTar header.payload.tar <;> simp [hg]
  · cases header.payload.gzip with
    | error err => simp
    | ok reader => cases hg : getFileListFromTar reader <;> simp [hg]
  · simp

/-- An entry whose round appends nothing can be removed from the archive. -/
theorem walkArchive_skip (v : String) (layers : List String) (before : List OuterEntry)
    (header : OuterEntry) (after : List OuterEntry) (pathInfo : List FileData)
    (h : entryFiles v layers header = .ok []) :
    walkArchive v layers (before ++ header :: after) pathInfo =
      walkArchive v layers (before ++ after) pathInfo := by
  induction before generalizing pathInfo with
  | nil => simp [walkArchive_cons, h]
  | cons b rest ih =>
    simp only [List.cons_append, walkArchive_cons]
    cases entryFiles v layers b with
    | error err => rfl
    | ok fl => exact ih _

/-- A successful walk returns the records of the entries, in order. -/
theorem walkArchive_ok (v : String) (layers : List String) (out : List OuterEntry)
    (pathInfo collected : List FileData)
    (h : walkArchive v layers out pathInfo = .ok collected) :
    collected = pathInfo ++ out.flatMap (entryRecords v layers) := by
  induction out generalizing pathInfo with
  | nil =>
    simp only [walkArchive, Except.ok.injEq] at h
    simp [h]
  | cons header rest ih =>
    rw [walkArchive_cons] at h
    cases hf : entryFiles v layers header with
    | error err => rw [hf] at h; cases h
    | ok fl =>
      rw [hf] at h
      have := ih _ h
      simp [this, List.flatMap_cons, entryRecords, hf]

/-- The walk succeeds when no round returns an error. -/
theorem walkArchive_ok_of (v : String) (layers : List String) (out : List OuterEntry)
    (pathInfo : List FileData)
    (h : ∀ header ∈ out, ∃ fl, entryFiles v layers header = .ok fl) :
    walkArchive v layers out pathInfo =
      .ok (pathInfo ++ out.flatMap (entryRecords v layers)) := by
  induction out generalizing pathInfo with
  | nil => simp [walkArchive]
  | cons header rest ih =>
    obtain ⟨fl, hf⟩ := h header (List.mem_cons_self _ _)
    rw [walkArchive_cons, hf]
    simp only
    rw [ih _ (fun x hx => h x (List.mem_cons_of_mem _ hx))]
    simp [List.flatMap_cons, entryRecords, hf]

/-- Every record an entry contributes was built from a header. -/
theorem entryRecords_record (v : String) (layers : List String) (header : OuterEntry)
    (r : FileData) (hr : r ∈ entryRecords v layers header) : ∃ h, r = headerRecord h := by
  unfold entryRecords entryFiles at hr
  cases hrd : entryReader v layers header with
  | none => simp [hrd] at hr
  | some x =>
    cases x with
    | error err => simp [hrd] at hr
    | ok reader =>
      cases hg : getFileListFromTar reader with
      | error err => simp [hrd, hg] at hr
      | ok fl =>
        simp only [hrd, hg] at hr
        obtain ⟨h1, -, -⟩ := loop_ok _ _ _ _ hg
        rw [h1] at hr
        simp only [List.nil_append, List.mem_map] at hr
        obtain ⟨h, -, rfl⟩ := hr
        exact ⟨h, rfl⟩

theorem lessDirName_iff (a b : FileData) :
    lessDirName a b = true ↔
      (a.IsDir = true ∧ b.IsDir = false) ∨ (a.IsDir = b.IsDir ∧ a.Name < b.Name) := by
  unfold lessDirName
  rw [← stringLess_iff]
  cases ha : a.IsDir <;> cases hb : b.IsDir <;> simp

theorem lessDirName_false_iff (a b : FileData) :
    lessDirName b a = false ↔
      (a.IsDir = true ∧ b.IsDir = false) ∨ (a.IsDir = b.IsDir ∧ a.Name ≤ b.Name) := by
  rw [← Bool.not_eq_true, lessDirName_iff]
  cases ha : a.IsDir <;> cases hb : b.IsDir <;> simp

theorem insertionSortSlice_spec : SortSliceSpec insertionSortSlice := by
  intro l
  constructor
  · refine ⟨List.perm_insertionSort _ l, ?_⟩
    haveI : IsTotal FileData (fun a b => lessDirFirst b a = false) :=
      ⟨fun a b => by
        simp only [lessDirFirst]
        cases a.IsDir <;> cases b.IsDir <;> simp⟩
    haveI : IsTrans FileData (fun a b => lessDirFirst b a = false) :=
      ⟨fun a b c => by
        simp only [lessDirFirst]
        cases a.IsDir <;> cases b.IsDir <;> cases c.IsDir <;> simp⟩
    exact List.sorted_insertionSort _ l
  · refine ⟨List.perm_insertionSort _ l, ?_⟩
    haveI : IsTotal FileData (fun a b => lessDirName b a = false) :=
      ⟨fun a b => by
        simp only [lessDirName_false_iff]
        rcases le_total a.Name b.Name with h | h
        · cases ha : a.IsDir <;> cases hb : b.IsDir <;> simp [h]
        · cases ha : a.IsDir <;> cases hb : b.IsDir <;> simp [h]⟩
    haveI : IsTrans FileData (fun a b => lessDirName b a = false) :=
      ⟨fun a b c => by
        simp only [lessDirName_false_iff]
        intro h1 h2
        cases ha : a.IsDir <;> cases hb : b.IsDir <;> cases hc : c.IsDir <;>
          simp [ha, hb, hc] at h1 h2 ⊢
        · exact le_trans h1 h2
        · exact le_trans h1 h2⟩
    exact List.sorted_insertionSort _ l

/-- What a successful call of `ImageInspectFileList` returns. -/
theorem ImageInspectFileList_ok
    (sortSlice : (FileData → FileData → Bool) → List FileData → List FileData)
    (self : Client) (imageID : String) (pathInfo : List FileData) (path : List String)
    (h : ImageInspectFileList sortSlice self imageID = .ok (pathInfo, path)) :
    ∃ imageInfo out collected,
      self.ImageInspect imageID = .ok imageInfo ∧
      (self.ImageSave [imageID]).1 = some out ∧
      walkArchive self.ServerVersion (PluckArrayWalk imageInfo.Layers layerBlobPath) out [] =
        .ok collected ∧
      pathInfo = dedupFrom (sortSlice lessDirName (sortSlice lessDirFirst collected)) [] ∧
      path = pathInfo.map FileData.Name := by
  unfold ImageInspectFileList at h
  cases hi : self.ImageInspect imageID with
  | error err => simp [hi] at h
  | ok imageInfo =>
    cases hs : (self.ImageSave [imageID]).1 with
    | none => simp [hi, hs] at h
    | some out =>
      cases hw : walkArchive self.ServerVersion
          (PluckArrayWalk imageInfo.Layers layerBlobPath) out [] with
      | error err => simp [hi, hs, hw] at h
      | ok collected =>
        simp only [hi, hs, hw, dedup_eq, List.nil_append, Outcome.ok.injEq, Prod.mk.injEq,
          List.filterMap_map, Function.comp_def, Option.some.injEq] at h
        refine ⟨imageInfo, out, collected, rfl, rfl, hw, ?_, ?_⟩
        · rw [← h.1]; simp [List.filterMap_some]
        · rw [← h.2, ← h.1]; simp [List.filterMap_some]

/-- The call succeeds when the two lookups and the walk succeed. -/
theorem ImageInspectFileList_of
    (sortSlice : (FileData → FileData → Bool) → List FileData → List FileData)
    (self : Client) (imageID : String) (imageInfo : ImageInfo) (out : List OuterEntry)
    (collected : List FileData)
    (hi : self.ImageInspect imageID = .ok imageInfo)
    (hs : (self.ImageSave [imageID]).1 = some out)
    (hw : walkArchive self.ServerVersion (PluckArrayWalk imageInfo.Layers layerBlobPath) out [] =
      .ok collected) :
    ImageInspectFileList sortSlice self imageID =
      .ok (dedupFrom (sortSlice lessDirName (sortSlice lessDirFirst collected)) [],
        (dedupFrom (sortSlice lessDirName (sortSlice lessDirFirst collected)) []).map
          FileData.Name) := by
  unfold ImageInspectFileList
  simp [hi, hs, hw, dedup_eq, List.filterMap_map, Function.comp_def, List.filterMap_some]

theorem mem_entryRecords_iff (v : String) (layers : List String) (header : OuterEntry)
    (r : FileData) :
    r ∈ entryRecords v layers header ↔
      ∃ reader fl, entryReader v layers header = some (.ok reader) ∧
        getFileListFromTar reader = .ok fl ∧ r ∈ fl := by
  unfold entryRecords entryFiles
  cases hrd : entryReader v layers header with
  | none => simp
  | some x =>
    cases x with
    | error err => simp
    | ok reader =>
      cases hg : getFileListFromTar reader with
      | error err => simp [hg]
      | ok fl => simp [hg]

/-- Every record of a sorted listing was built from a header, so its `Path`
and its `Name` agree. -/
theorem sorted_path_eq_name
    (sortSlice : (FileData → FileData → Bool) → List FileData → List FileData)
    (hsort : SortSliceSpec sortSlice) (v : String) (layers : List String)
    (out : List OuterEntry) (collected : List FileData)
    (hw : walkArchive v layers out [] = .ok collected) (r : FileData)
    (hr : r ∈ sortSlice lessDirName (sortSlice lessDirFirst collected)) :
    r.Path = r.Name := by
  have h2 := ((hsort (sortSlice lessDirFirst collected)).2.1.mem_iff (a := r)).1 hr
  have h1 := ((hsort collected).1.1.mem_iff (a := r)).1 h2
  rw [walkArchive_ok v layers out [] collected hw] at h1
  simp only [List.nil_append, List.mem_flatMap] at h1
  obtain ⟨header, -, hmem⟩ := h1
  obtain ⟨h, rfl⟩ := entryRecords_record v layers header r hmem
  rfl

theorem find_congr {α : Type} (l : List α) (p q : α → Bool) (h : ∀ x ∈ l, p x = q x) :
    l.find? p = l.find? q := by
  induction l with
  | nil => rfl
  | cons a rest ih =>
    have ha := h a (List.mem_cons_self _ _)
    have hrest := ih (fun x hx => h x (List.mem_cons_of_mem _ hx))
    simp only [List.find?_cons, ha, hrest]

/-- C1: the record list `ImageInspectFileList` returns has every directory
record before every non-directory record, and among the directory records and
among the non-directory records the paths are lexicographically
non-decreasing, whichever sorted permutations the two `sort.Slice` passes
produce. -/
theorem C1_directories_first_then_paths_ascending
    (sortSlice : (FileData → FileData → Bool) → List FileData → List FileData)
    (hsort : SortSliceSpec sortSlice) (self : Client) (imageID : String)
    (pathInfo : List FileData) (path : List String)
    (h : ImageInspectFileList sortSlice self imageID = .ok (pathInfo, path)) :
    (∀ (i j : Nat) (hi : i < pathInfo.length) (hj : j < pathInfo.length),
        pathInfo[i].IsDir = true → pathInfo[j].IsDir = false → i < j) ∧
      (∀ (i j : Nat) (hi : i < pathInfo.length) (hj : j < pathInfo.length), i < j →
        pathInfo[i].IsDir = pathInfo[j].IsDir → pathInfo[i].Path ≤ pathInfo[j].Path) := by
  obtain ⟨imageInfo, out, collected, -, -, hw, hp, -⟩ :=
    ImageInspectFileList_ok sortSlice self imageID pathInfo path h
  have hsub : pathInfo.Sublist (sortSlice lessDirName (sortSlice lessDirFirst collected)) :=
    hp ▸ dedupFrom_sublist _ _
  have hpw : pathInfo.Pairwise (fun a b => lessDirName b a = false) :=
    (hsort (sortSlice lessDirFirst collected)).2.2.sublist hsub
  have hname : ∀ r ∈ pathInfo, r.Path = r.Name := fun r hr =>
    sorted_path_eq_name sortSlice hsort _ _ out collected hw r (hsub.subset hr)
  rw [List.pairwise_iff_getElem] at hpw
  constructor
  · intro i j hi hj hdi hdj
    by_contra hlt
    rcases Nat.lt_or_eq_of_le (Nat.not_lt.1 hlt) with hji | hji
    · have := (lessDirName_false_iff _ _).1 (hpw j i hj hi hji)
      rw [hdi, hdj] at this
      simp at this
    · subst hji
      rw [hdi] at hdj
      cases hdj
  · intro i j hi hj hij hsame
    have := (lessDirName_false_iff _ _).1 (hpw i j hi hj hij)
    rw [hname _ (List.getElem_mem hi), hname _ (List.getElem_mem hj)]
    rcases this with ⟨h1, h2⟩ | ⟨-, h2⟩
    · rw [hsame, h2] at h1
      cases h1
    · exact h2

/-- C1 at the two-layer scenario, sorted by insertion sort. -/
theorem C1_directories_first_then_paths_ascending_witness :
    SortSliceSpec insertionSortSlice ∧
      ImageInspectFileList insertionSortSlice scenarioClient "img" =
        .ok (scenarioListing, scenarioPaths) ∧
      ((∀ (i j : Nat) (hi : i < scenarioListing.length) (hj : j < scenarioListing.length),
          scenarioListing[i].IsDir = true → scenarioListing[j].IsDir = false → i < j) ∧
        (∀ (i j : Nat) (hi : i < scenarioListing.length) (hj : j < scenarioListing.length),
          i < j → scenarioListing[i].IsDir = scenarioListing[j].IsDir →
          scenarioListing[i].Path ≤ scenarioListing[j].Path)) :=
  ⟨insertionSortSlice_spec, by decide,
    C1_directories_first_then_paths_ascending insertionSortSlice insertionSortSlice_spec
      scenarioClient "img" scenarioListing scenarioPaths (by decide)⟩

/-- When every layer entry of the outer archive parses, the call succeeds,
every path carried by a record of some layer occurs exactly once in the
returned path list, and the path list holds no other path. -/
theorem layer_paths_exactly_once
    (sortSlice : (FileData → FileData → Bool) → List FileData → List FileData)
    (hsort : SortSliceSpec sortSlice) (self : Client) (imageID : String)
    (imageInfo : ImageInfo) (out : List OuterEntry)
    (hinspect : self.ImageInspect imageID = .ok imageInfo)
    (hsave : (self.ImageSave [imageID]).1 = some out)
    (hparse : ∀ header ∈ out, ∀ x,
      entryReader self.ServerVersion (PluckArrayWalk imageInfo.Layers layerBlobPath) header =
        some x →
      ∃ reader fl, x = .ok reader ∧ getFileListFromTar reader = .ok fl) :
    ∃ pathInfo path,
      ImageInspectFileList sortSlice self imageID = .ok (pathInfo, path) ∧
      (∀ p,
        (∃ header ∈ out, ∃ reader fl,
          entryReader self.ServerVersion (PluckArrayWalk imageInfo.Layers layerBlobPath)
            header = some (.ok reader) ∧
          getFileListFromTar reader = .ok fl ∧ ∃ r ∈ fl, r.Path = p) →
        path.count p = 1) ∧
      (∀ p ∈ path,
        ∃ header ∈ out, ∃ reader fl,
          entryReader self.ServerVersion (PluckArrayWalk imageInfo.Layers layerBlobPath)
            header = some (.ok reader) ∧
          getFileListFromTar reader = .ok fl ∧ ∃ r ∈ fl, r.Path = p) := by
  have hfiles : ∀ header ∈ out, ∃ fl,
      entryFiles self.ServerVersion (PluckArrayWalk imageInfo.Layers layerBlobPath) header =
        .ok fl := by
    intro header hm
    unfold entryFiles
    cases hrd : entryReader self.ServerVersion
        (PluckArrayWalk imageInfo.Layers layerBlobPath) header with
    | none => exact ⟨[], rfl⟩
    | some x =>
      obtain ⟨reader, fl, rfl, hg⟩ := hparse header hm x hrd
      exact ⟨fl, by simp [hg]⟩
  have hw := walkArchive_ok_of self.ServerVersion
    (PluckArrayWalk imageInfo.Layers layerBlobPath) out [] hfiles
  have hres := ImageInspectFileList_of sortSlice self imageID imageInfo out _ hinspect hsave hw
  refine ⟨_, _, hres, ?_, ?_⟩
  all_goals
    have hmem : ∀ p, p ∈ (dedupFrom (sortSlice lessDirName (sortSlice lessDirFirst
        ([] ++ out.flatMap (entryRecords self.ServerVersion
          (PluckArrayWalk imageInfo.Layers layerBlobPath))))) []).map FileData.Name ↔
        ∃ header ∈ out, ∃ reader fl,
          entryReader self.ServerVersion (PluckArrayWalk imageInfo.Layers layerBlobPath)
            header = some (.ok reader) ∧
          getFileListFromTar reader = .ok fl ∧ ∃ r ∈ fl, r.Path = p := by
      intro p
      rw [mem_dedupFrom_names]
      simp only [List.not_mem_nil, not_false_eq_true, and_true, List.mem_map]
      constructor
      · rintro ⟨r, hr, rfl⟩
        have hpn := sorted_path_eq_name sortSlice hsort _ _ out _ hw r hr
        have h2 := ((hsort _).2.1.mem_iff (a := r)).1 hr
        have h1 := ((hsort _).1.1.mem_iff (a := r)).1 h2
        simp only [List.nil_append, List.mem_flatMap] at h1
        obtain ⟨header, hm, hrm⟩ := h1
        obtain ⟨reader, fl, h3, h4, h5⟩ := (mem_entryRecords_iff _ _ _ _).1 hrm
        exact ⟨header, hm, reader, fl, h3, h4, r, h5, hpn⟩
      · rintro ⟨header, hm, reader, fl, h3, h4, r, h5, rfl⟩
        have hrm := (mem_entryRecords_iff _ _ header r).2 ⟨reader, fl, h3, h4, h5⟩
        have h1 : r ∈ ([] : List FileData) ++ out.flatMap (entryRecords self.ServerVersion
            (PluckArrayWalk imageInfo.Layers layerBlobPath)) := by
          simp only [List.nil_append, List.mem_flatMap]
          exact ⟨header, hm, hrm⟩
        have h2 := ((hsort _).1.1.mem_iff (a := r)).2 h1
        have h3 := ((hsort _).2.1.mem_iff (a := r)).2 h2
        exact ⟨r, h3, (sorted_path_eq_name sortSlice hsort _ _ out _ hw r h3).symm⟩
  · intro p hp
    exact List.count_eq_one_of_mem (dedupFrom_nodup _ _) ((hmem p).2 hp)
  · intro p hp
    exact (hmem p).1 hp

set_option maxRecDepth 4000 in
/-- Every sorted permutation of the records of the two-layer scenario
deduplicates to the paths `/etc`, `/var`, `/etc/passwd`, with one record for
`/etc/passwd`. -/
theorem scenario_sorted (s : List FileData) (hperm : s.Perm scenarioCollected)
    (hpw : s.Pairwise (fun a b => lessDirName b a = false)) :
    (dedupFrom s []).map FileData.Name = ["/etc", "/var", "/etc/passwd"] ∧
      ((dedupFrom s []).filter (fun r => decide (r.Path = "/etc/passwd"))).length = 1 := by
  have hlen : s.length = 4 := hperm.length_eq
  match s, hlen with
  | [a, b, c, d], _ =>
    have ha : a ∈ scenarioCollected := hperm.subset (by simp)
    have hb : b ∈ scenarioCollected := hperm.subset (by simp)
    have hc : c ∈ scenarioCollected := hperm.subset (by simp)
    have hd : d ∈ scenarioCollected := hperm.subset (by simp)
    simp only [scenarioCollected, List.mem_cons, List.mem_singleton, List.not_mem_nil,
      or_false] at ha hb hc hd
    rcases ha with rfl | rfl | rfl | rfl <;> rcases hb with rfl | rfl | rfl | rfl <;>
      rcases hc with rfl | rfl | rfl | rfl <;> rcases hd with rfl | rfl | rfl | rfl <;>
      first
        | (exfalso; revert hpw; decide)
        | (exfalso; revert hperm; decide)
        | decide

/-- C2: for every sorting routine that meets the contract of `sort.Slice`:
when every layer entry of the outer archive parses, the call succeeds, every
path carried by a record of some layer occurs exactly once in the returned
path list, and the path list holds no other path; and in the scenario of
`layer1.tar` with the file `/etc/passwd` and the directory `/etc` and
`layer2.tar` with a file `/etc/passwd` of another size and the directory
`/var` the path list is `["/etc", "/var", "/etc/passwd"]`, with exactly one
record for `/etc/passwd`. -/
theorem C2_every_layer_path_exactly_once
    (sortSlice : (FileData → FileData → Bool) → List FileData → List FileData)
    (hsort : SortSliceSpec sortSlice) :
    (∀ (self : Client) (imageID : String) (imageInfo : ImageInfo) (out : List OuterEntry),
      self.ImageInspect imageID = .ok imageInfo →
      (self.ImageSave [imageID]).1 = some out →
      (∀ header ∈ out, ∀ x,
        entryReader self.ServerVersion (PluckArrayWalk imageInfo.Layers layerBlobPath) header =
          some x →
        ∃ reader fl, x = .ok reader ∧ getFileListFromTar reader = .ok fl) →
      ∃ pathInfo path,
        ImageInspectFileList sortSlice self imageID = .ok (pathInfo, path) ∧
        (∀ p,
          (∃ header ∈ out, ∃ reader fl,
            entryReader self.ServerVersion (PluckArrayWalk imageInfo.Layers layerBlobPath)
              header = some (.ok reader) ∧
            getFileListFromTar reader = .ok fl ∧ ∃ r ∈ fl, r.Path = p) →
          path.count p = 1) ∧
        (∀ p ∈ path,
          ∃ header ∈ out, ∃ reader fl,
            entryReader self.ServerVersion (PluckArrayWalk imageInfo.Layers layerBlobPath)
              header = some (.ok reader) ∧
            getFileListFromTar reader = .ok fl ∧ ∃ r ∈ fl, r.Path = p)) ∧
    (∃ pathInfo,
      ImageInspectFileList sortSlice scenarioClient "img" =
        .ok (pathInfo, ["/etc", "/var", "/etc/passwd"]) ∧
      (pathInfo.filter (fun r => decide (r.Path = "/etc/passwd"))).length = 1) := by
  refine ⟨fun self imageID imageInfo out hinspect hsave hparse =>
    layer_paths_exactly_once sortSlice hsort self imageID imageInfo out hinspect hsave hparse,
    ?_⟩
  have hw : walkArchive scenarioClient.ServerVersion
      (PluckArrayWalk ({ Layers := [] } : ImageInfo).Layers layerBlobPath) scenarioArchive [] =
      .ok scenarioCollected := rfl
  have hres := ImageInspectFileList_of sortSlice scenarioClient "img" { Layers := [] }
    scenarioArchive scenarioCollected rfl rfl hw
  have hperm := ((hsort (sortSlice lessDirFirst scenarioCollected)).2.1).trans
    (hsort scenarioCollected).1.1
  obtain ⟨h1, h2⟩ := scenario_sorted _ hperm (hsort _).2.2
  exact ⟨_, by rw [hres, h1], h2⟩

/-- C2 at insertion sort and the two-layer scenario: the listing is that of
the scenario, and the general statement holds for its archive. -/
theorem C2_every_layer_path_exactly_once_witness :
    SortSliceSpec insertionSortSlice ∧
      ImageInspectFileList insertionSortSlice scenarioClient "img" =
        .ok (scenarioListing, ["/etc", "/var", "/etc/passwd"]) ∧
      (∃ pathInfo path,
        ImageInspectFileList insertionSortSlice scenarioClient "img" = .ok (pathInfo, path) ∧
        (∀ p,
          (∃ header ∈ scenarioArchive, ∃ reader fl,
            entryReader "24.0.0" (PluckArrayWalk [] layerBlobPath) header = some (.ok reader) ∧
            getFileListFromTar reader = .ok fl ∧ ∃ r ∈ fl, r.Path = p) →
          path.count p = 1) ∧
        (∀ p ∈ path,
          ∃ header ∈ scenarioArchive, ∃ reader fl,
            entryReader "24.0.0" (PluckArrayWalk [] layerBlobPath) header = some (.ok reader) ∧
            getFileListFromTar reader = .ok fl ∧ ∃ r ∈ fl, r.Path = p)) ∧
      (∃ pathInfo,
        ImageInspectFileList insertionSortSlice scenarioClient "img" =
          .ok (pathInfo, ["/etc", "/var", "/etc/passwd"]) ∧
        (pathInfo.filter (fun r => decide (r.Path = "/etc/passwd"))).length = 1) :=
  ⟨insertionSortSlice_spec, by decide,
    (C2_every_layer_path_exactly_once insertionSortSlice insertionSortSlice_spec).1
      scenarioClient "img" { Layers := [] } scenarioArchive rfl rfl (by
        intro header hm x hx
        simp only [scenarioArchive, List.mem_cons, List.mem_singleton, List.not_mem_nil,
          or_false] at hm
        rcases hm with rfl | rfl
        · exact ⟨_, _, (Option.some.inj hx).symm, rfl⟩
        · exact ⟨_, _, (Option.some.inj hx).symm, rfl⟩),
    (C2_every_layer_path_exactly_once insertionSortSlice insertionSortSlice_spec).2⟩

/-- C10: the two outputs are aligned: the path list has the length of the
record list and its i-th element is the path of the i-th record, and every
kept record is the first record with its path in the sorted sequence. -/
theorem C10_paths_aligned_with_first_records
    (sortSlice : (FileData → FileData → Bool) → List FileData → List FileData)
    (hsort : SortSliceSpec sortSlice) (self : Client) (imageID : String)
    (pathInfo : List FileData) (path : List String)
    (h : ImageInspectFileList sortSlice self imageID = .ok (pathInfo, path)) :
    path.length = pathInfo.length ∧
      (∀ (i : Nat) (hi : i < path.length) (hj : i < pathInfo.length),
        path[i] = pathInfo[i].Path) ∧
      ∃ imageInfo out collected,
        self.ImageInspect imageID = .ok imageInfo ∧
        (self.ImageSave [imageID]).1 = some out ∧
        walkArchive self.ServerVersion (PluckArrayWalk imageInfo.Layers layerBlobPath) out [] =
          .ok collected ∧
        ∀ r ∈ pathInfo,
          (sortSlice lessDirName (sortSlice lessDirFirst collected)).find?
            (fun x => decide (x.Path = r.Path)) = some r := by
  obtain ⟨imageInfo, out, collected, hinspect, hs, hw, hp, hpath⟩ :=
    ImageInspectFileList_ok sortSlice self imageID pathInfo path h
  have hsub : pathInfo.Sublist (sortSlice lessDirName (sortSlice lessDirFirst collected)) :=
    hp ▸ dedupFrom_sublist _ _
  have hname : ∀ r ∈ sortSlice lessDirName (sortSlice lessDirFirst collected),
      r.Path = r.Name := fun r hr =>
    sorted_path_eq_name sortSlice hsort _ _ out collected hw r hr
  refine ⟨by simp [hpath], ?_, imageInfo, out, collected, hinspect, hs, hw, ?_⟩
  · intro i _ hj
    subst hpath
    rw [List.getElem_map, hname _ (hsub.subset (List.getElem_mem hj))]
  · intro r hr
    have hfirst := dedupFrom_first _ [] r (hp ▸ hr)
    rw [← hfirst]
    apply find_congr
    intro x hx
    rw [hname x hx, hname r (hsub.subset hr)]

/-- C10 at the two-layer scenario, sorted by insertion sort. -/
theorem C10_paths_aligned_with_first_records_witness :
    ImageInspectFileList insertionSortSlice scenarioClient "img" =
        .ok (scenarioListing, scenarioPaths) ∧
      (scenarioPaths.length = scenarioListing.length ∧
        (∀ (i : Nat) (_ : i < scenarioPaths.length) (_ : i < scenarioListing.length),
          scenarioPaths[i] = scenarioListing[i].Path) ∧
        ∃ imageInfo out collected,
          scenarioClient.ImageInspect "img" = .ok imageInfo ∧
          (scenarioClient.ImageSave ["img"]).1 = some out ∧
          walkArchive scenarioClient.ServerVersion
            (PluckArrayWalk imageInfo.Layers layerBlobPath) out [] = .ok collected ∧
          ∀ r ∈ scenarioListing,
            (insertionSortSlice lessDirName (insertionSortSlice lessDirFirst collected)).find?
              (fun x => decide (x.Path = r.Path)) = some r) :=
  ⟨by decide,
    C10_paths_aligned_with_first_records insertionSortSlice insertionSortSlice_spec
      scenarioClient "img" scenarioListing scenarioPaths (by decide)⟩

/-- Removing an entry whose round appends nothing does not change the result
of the call. -/
theorem ImageInspectFileList_skip
    (sortSlice : (FileData → FileData → Bool) → List FileData → List FileData)
    (self : Client) (imageID : String) (imageInfo : ImageInfo)
    (hinspect : self.ImageInspect imageID = .ok imageInfo)
    (before : List OuterEntry) (entry : OuterEntry) (after : List OuterEntry)
    (h : entryFiles self.ServerVersion (PluckArrayWalk imageInfo.Layers layerBlobPath) entry =
      .ok []) :
    ImageInspectFileList sortSlice (withArchive self (before ++ entry :: after)) imageID =
      ImageInspectFileList sortSlice (withArchive self (before ++ after)) imageID := by
  unfold ImageInspectFileList
  simp only [withArchive, hinspect]
  rw [walkArchive_skip _ _ before entry after [] h]

theorem entryFiles_of_error (v : String) (layers : List String) (entry : OuterEntry)
    (reader : TarReader) (err : String)
    (hreader : entryReader v layers entry = some (.ok reader))
    (hfail : getFileListFromTar reader = .error err) :
    entryFiles v layers entry = .ok [] := by
  unfold entryFiles
  simp [hreader, hfail]

/-- C3 as stated fails: a layer that starts with a global extended header
makes `getFileListFromTar` fail, and `ImageInspectFileList` returns an empty
listing with a nil error. -/
theorem C3_extended_header_counterexample :
    getFileListFromTar
        { headers := [globalExtendedHeader "pax_global_header", regularFile "etc/passwd" 100],
          ending := StreamEnd.eof } =
        .error "unexptected tar file: (XGlobalHeader): type=103 name=pax_global_header" ∧
      ImageInspectFileList insertionSortSlice (clientOf [] "24.0.0" paxArchive) "img" =
        .ok ([], []) :=
  ⟨rfl, by decide⟩

/-- C3, amended: `getFileListFromTar` fails at the first extended header it
reaches (one whose cleaned name is not `"."`) with an error that carries the
type and the cleaned name of the entry; `ImageInspectFileList` skips that
layer and returns what it returns for the archive without the entry. -/
theorem C3_extended_header_fails_the_layer_only
    (sortSlice : (FileData → FileData → Bool) → List FileData → List FileData)
    (self : Client) (imageID : String) (imageInfo : ImageInfo)
    (before : List OuterEntry) (entry : OuterEntry) (after : List OuterEntry)
    (reader : TarReader) (pre : List Header) (header : Header) (post : List Header)
    (hinspect : self.ImageInspect imageID = .ok imageInfo)
    (hreader : entryReader self.ServerVersion (PluckArrayWalk imageInfo.Layers layerBlobPath)
      entry = some (.ok reader))
    (hheaders : reader.headers = pre ++ header :: post)
    (hpre : ∀ x ∈ pre, pathClean x.Name ≠ "." →
      x.Typeflag ≠ TypeXGlobalHeader ∧ x.Typeflag ≠ TypeXHeader)
    (hname : pathClean header.Name ≠ ".")
    (htype : header.Typeflag = TypeXGlobalHeader ∨ header.Typeflag = TypeXHeader) :
    getFileListFromTar reader =
        .error (if header.Typeflag = TypeXGlobalHeader then
          "unexptected tar file: (XGlobalHeader): type=103 name=" ++ pathClean header.Name
        else "unexptected tar file (XHeader): type=120 name=" ++ pathClean header.Name) ∧
      ImageInspectFileList sortSlice (withArchive self (before ++ entry :: after)) imageID =
        ImageInspectFileList sortSlice (withArchive self (before ++ after)) imageID := by
  have hk : keepsHeader header = true := by simpa [keepsHeader] using hname
  have hx : isExtendedHeader header = true := by
    simpa [isExtendedHeader] using htype
  have hpre2 : ∀ x ∈ pre, keepsHeader x = true → isExtendedHeader x = false := by
    intro x hxm hkx
    have := hpre x hxm (by simpa [keepsHeader] using hkx)
    simp [isExtendedHeader, this.1, this.2]
  have hfail : getFileListFromTar reader = .error (extendedHeaderError header) := by
    unfold getFileListFromTar
    rw [hheaders]
    exact loop_extended pre header post reader.ending [] hpre2 hk hx
  refine ⟨?_, ?_⟩
  · rw [hfail]
    unfold extendedHeaderError
    rcases htype with ht | ht
    · rw [ht]; rfl
    · rw [ht]; rfl
  · exact ImageInspectFileList_skip sortSlice self imageID imageInfo hinspect before entry after
      (entryFiles_of_error _ _ entry reader _ hreader hfail)

/-- C3, amended, at an archive whose first layer starts with a global
extended header and whose other layers are those of the two-layer scenario. -/
theorem C3_extended_header_fails_the_layer_only_witness :
    getFileListFromTar
        { headers := [globalExtendedHeader "pax_global_header", regularFile "etc/passwd" 100],
          ending := StreamEnd.eof } =
        .error (if (globalExtendedHeader "pax_global_header").Typeflag = TypeXGlobalHeader then
          "unexptected tar file: (XGlobalHeader): type=103 name=" ++
            pathClean (globalExtendedHeader "pax_global_header").Name
        else "unexptected tar file (XHeader): type=120 name=" ++
          pathClean (globalExtendedHeader "pax_global_header").Name) ∧
      ImageInspectFileList insertionSortSlice
          (withArchive scenarioClient ([] ++ paxLayer :: scenarioArchive)) "img" =
        ImageInspectFileList insertionSortSlice
          (withArchive scenarioClient ([] ++ scenarioArchive)) "img" :=
  C3_extended_header_fails_the_layer_only insertionSortSlice scenarioClient "img"
    { Layers := [] } [] paxLayer scenarioArchive
    { headers := [globalExtendedHeader "pax_global_header", regularFile "etc/passwd" 100],
      ending := StreamEnd.eof }
    [] (globalExtendedHeader "pax_global_header") [regularFile "etc/passwd" 100]
    rfl rfl rfl (by simp) (by decide) (by decide)

theorem getFileListFromTar_failed (reader : TarReader) (err : String)
    (h : reader.ending = StreamEnd.failed err) :
    ∃ e, getFileListFromTar reader = .error e := by
  unfold getFileListFromTar
  rw [h]
  exact loop_failed reader.headers err []

/-- C4: when the nested tar stream of a layer entry ends in a read error,
`getFileListFromTar` fails and none of the layer's records is kept, the round
of the loop returns no error, and the call returns what it returns for the
archive without the entry: a listing with a nil error when no other entry
fails to open as gzip. -/
theorem C4_failed_layer_is_skipped
    (sortSlice : (FileData → FileData → Bool) → List FileData → List FileData)
    (self : Client) (imageID : String) (imageInfo : ImageInfo)
    (before : List OuterEntry) (entry : OuterEntry) (after : List OuterEntry)
    (reader : TarReader) (err : String)
    (hinspect : self.ImageInspect imageID = .ok imageInfo)
    (hreader : entryReader self.ServerVersion (PluckArrayWalk imageInfo.Layers layerBlobPath)
      entry = some (.ok reader))
    (hfail : reader.ending = StreamEnd.failed err) :
    (∃ e, getFileListFromTar reader = .error e) ∧
      (∀ pathInfo, walkArchive self.ServerVersion
          (PluckArrayWalk imageInfo.Layers layerBlobPath) [entry] pathInfo = .ok pathInfo) ∧
      ImageInspectFileList sortSlice (withArchive self (before ++ entry :: after)) imageID =
        ImageInspectFileList sortSlice (withArchive self (before ++ after)) imageID ∧
      ((∀ other ∈ before ++ after, ∀ e,
          entryReader self.ServerVersion (PluckArrayWalk imageInfo.Layers layerBlobPath)
            other ≠ some (.error e)) →
        ∃ listing,
          ImageInspectFileList sortSlice (withArchive self (before ++ entry :: after)) imageID =
            .ok listing) := by
  obtain ⟨e, he⟩ := getFileListFromTar_failed reader err hfail
  have hskip := entryFiles_of_error _ _ entry reader e hreader he
  have heq := ImageInspectFileList_skip sortSlice self imageID imageInfo hinspect before entry
    after hskip
  refine ⟨⟨e, he⟩, ?_, heq, ?_⟩
  · intro pathInfo
    rw [walkArchive_cons, hskip]
    simp [walkArchive]
  · intro hother
    rw [heq]
    have hfiles : ∀ other ∈ before ++ after, ∃ fl,
        entryFiles self.ServerVersion (PluckArrayWalk imageInfo.Layers layerBlobPath) other =
          .ok fl := by
      intro other hm
      unfold entryFiles
      cases hrd : entryReader self.ServerVersion
          (PluckArrayWalk imageInfo.Layers layerBlobPath) other with
      | none => exact ⟨[], rfl⟩
      | some x =>
        cases x with
        | error e2 => exact absurd hrd (hother other hm e2)
        | ok rd =>
          cases hg : getFileListFromTar rd with
          | error e3 => exact ⟨[], by simp [hg]⟩
          | ok fl => exact ⟨fl, by simp [hg]⟩
    have hw := walkArchive_ok_of self.ServerVersion
      (PluckArrayWalk imageInfo.Layers layerBlobPath) (before ++ after) [] hfiles
    exact ⟨_, ImageInspectFileList_of sortSlice (withArchive self (before ++ after)) imageID
      imageInfo (before ++ after) _ hinspect rfl hw⟩

/-- C4 at the two-layer scenario with a gzip layer that opens and turns out
corrupt put between the two layers: the listing is that of the scenario. -/
theorem C4_failed_layer_is_skipped_witness :
    ImageInspectFileList insertionSortSlice
        (withArchive scenarioClient
          ([scenarioLayer1] ++ corruptGzipLayer :: [scenarioLayer2])) "img" =
        .ok (scenarioListing, scenarioPaths) ∧
      ((∃ e, getFileListFromTar
          { headers := [regularFile "usr/bin/tool" 4096],
            ending := StreamEnd.failed "gzip: invalid checksum" } = .error e) ∧
        (∀ pathInfo, walkArchive scenarioClient.ServerVersion
            (PluckArrayWalk [] layerBlobPath) [corruptGzipLayer] pathInfo = .ok pathInfo) ∧
        ImageInspectFileList insertionSortSlice
            (withArchive scenarioClient
              ([scenarioLayer1] ++ corruptGzipLayer :: [scenarioLayer2])) "img" =
          ImageInspectFileList insertionSortSlice
            (withArchive scenarioClient ([scenarioLayer1] ++ [scenarioLayer2]))
            "img" ∧
        ((∀ other ∈ [scenarioLayer1] ++ [scenarioLayer2], ∀ e,
            entryReader scenarioClient.ServerVersion (PluckArrayWalk [] layerBlobPath)
              other ≠ some (.error e)) →
          ∃ listing,
            ImageInspectFileList insertionSortSlice
                (withArchive scenarioClient
                  ([scenarioLayer1] ++ corruptGzipLayer :: [scenarioLayer2]))
                "img" = .ok listing)) :=
  ⟨by decide,
    C4_failed_layer_is_skipped insertionSortSlice scenarioClient "img" { Layers := [] }
      [scenarioLayer1] corruptGzipLayer [scenarioLayer2]
      { headers := [regularFile "usr/bin/tool" 4096],
        ending := StreamEnd.failed "gzip: invalid checksum" }
      "gzip: invalid checksum" rfl rfl rfl⟩

theorem stringsCutList_prefix (sep rest : List Char) (hne : sep ≠ []) :
    stringsCutList sep (sep ++ rest) = some ([], rest) := by
  cases sep with
  | nil => exact absurd rfl hne
  | cons c cs =>
    have hp : (c :: cs).isPrefixOf (c :: (cs ++ rest)) = true :=
      List.isPrefixOf_iff_prefix.2 ⟨rest, rfl⟩
    show stringsCutList (c :: cs) (c :: (cs ++ rest)) = some ([], rest)
    rw [stringsCutList, if_pos hp]
    simp

theorem layerBlobPath_digest (hex : String) :
    layerBlobPath ("sha256:" ++ hex) = ("blobs/sha256/" ++ hex, true) := by
  have h : stringsCutList "sha256:".data ("sha256:" ++ hex).data = some ([], hex.data) := by
    rw [String.data_append]
    exact stringsCutList_prefix _ _ (by decide)
  simp only [layerBlobPath, stringsCut, h]

theorem PluckArrayWalk_eq {T R : Type} (v : List T) (walk : T → R × Bool) :
    PluckArrayWalk v walk =
      v.filterMap (fun i => if (walk i).2 = true then some (walk i).1 else none) := by
  unfold PluckArrayWalk
  induction v with
  | nil => rfl
  | cons item rest ih =>
    rcases hw : walk item with ⟨k, b⟩
    cases b with
    | true => simp [PluckArrayWalkState, hw, List.filterMap_cons, ← ih]
    | false => simp [PluckArrayWalkState, hw, List.filterMap_cons, ← ih]

theorem blobPath_mem_layers (layers : List String) (hex : String)
    (h : "sha256:" ++ hex ∈ layers) :
    InArray (PluckArrayWalk layers layerBlobPath) ("blobs/sha256/" ++ hex) = true := by
  rw [InArray_iff, PluckArrayWalk_eq, List.mem_filterMap]
  exact ⟨_, h, by simp [layerBlobPath_digest]⟩

theorem not_hasSuffix_of_not_mem (s suffix : String) (c : Char) (hc : c ∈ suffix.data)
    (hs : c ∉ s.data) : stringsHasSuffix s suffix = false := by
  rw [← Bool.not_eq_true]
  intro h
  unfold stringsHasSuffix at h
  obtain ⟨t, ht⟩ := List.isSuffixOf_iff_suffix.1 h
  apply hs
  rw [← ht]
  exact List.mem_append_right _ hc

theorem blobPath_chars (hex : String) (hhex : ∀ c ∈ hex.data, isHexDigit c = true) :
    'r' ∉ ("blobs/sha256/" ++ hex).data ∧ 'z' ∉ ("blobs/sha256/" ++ hex).data := by
  rw [String.data_append]
  constructor
  · intro h
    rcases List.mem_append.1 h with h | h
    · revert h; decide
    · have := hhex _ h
      revert this; decide
  · intro h
    rcases List.mem_append.1 h with h | h
    · revert h; decide
    · have := hhex _ h
      revert this; decide

/-- With a server version below 25 the blob path of a layer digest is not a
layer payload. -/
theorem entryReader_blob_24 (layers : List String) (hex : String)
    (hhex : ∀ c ∈ hex.data, isHexDigit c = true) (entry : OuterEntry)
    (hname : entry.Name = "blobs/sha256/" ++ hex) :
    entryReader "24.0.0" (PluckArrayWalk layers layerBlobPath) entry = none := by
  obtain ⟨hr, hz⟩ := blobPath_chars hex hhex
  have hv : versionCompare "24.0.0" "25" ">=" = false := by decide
  have h1 := not_hasSuffix_of_not_mem ("blobs/sha256/" ++ hex) ".tar" 'r' (by decide) hr
  have h2 := not_hasSuffix_of_not_mem ("blobs/sha256/" ++ hex) ".tar.gz" 'z' (by decide) hz
  have h3 := not_hasSuffix_of_not_mem ("blobs/sha256/" ++ hex) "tgz" 'z' (by decide) hz
  simp [entryReader, hname, hv, h1, h2, h3]

/-- With server version 25.0.0 the blob path of a layer digest is read as an
uncompressed tar stream. -/
theorem entryReader_blob_25 (layers : List String) (hex : String)
    (hmem : "sha256:" ++ hex ∈ layers) (entry : OuterEntry)
    (hname : entry.Name = "blobs/sha256/" ++ hex) :
    entryReader "25.0.0" (PluckArrayWalk layers layerBlobPath) entry =
      some (.ok entry.payload.tar) := by
  have hv : versionCompare "25.0.0" "25" ">=" = true := by decide
  simp [entryReader, hname, hv, blobPath_mem_layers layers hex hmem]

/-- C6: for a layer digest `sha256:<hex>` of the image and an outer entry
named `blobs/sha256/<hex>`: with server version "24.0.0" the entry is not a
layer payload and contributes no record, the call returns what it returns
without the entry; with server version "25.0.0" the entry is read as an
uncompressed tar stream and the paths of its nested entries are in the
returned path list. -/
theorem C6_blob_path_gated_by_version
    (sortSlice : (FileData → FileData → Bool) → List FileData → List FileData)
    (hsort : SortSliceSpec sortSlice)
    (layers : List String) (hex : String) (imageID : String)
    (before : List OuterEntry) (entry : OuterEntry) (after : List OuterEntry)
    (hhex : ∀ c ∈ hex.data, isHexDigit c = true)
    (hmem : "sha256:" ++ hex ∈ layers)
    (hname : entry.Name = "blobs/sha256/" ++ hex) :
    (entryReader "24.0.0" (PluckArrayWalk layers layerBlobPath) entry = none ∧
      entryRecords "24.0.0" (PluckArrayWalk layers layerBlobPath) entry = [] ∧
      ImageInspectFileList sortSlice
          (clientOf layers "24.0.0" (before ++ entry :: after)) imageID =
        ImageInspectFileList sortSlice (clientOf layers "24.0.0" (before ++ after)) imageID) ∧
    (entryReader "25.0.0" (PluckArrayWalk layers layerBlobPath) entry =
        some (.ok entry.payload.tar) ∧
      (∀ rest pathInfo tarFileList,
        getFileListFromTar entry.payload.tar = .ok tarFileList →
        walkArchive "25.0.0" (PluckArrayWalk layers layerBlobPath) (entry :: rest) pathInfo =
          walkArchive "25.0.0" (PluckArrayWalk layers layerBlobPath) rest
            (pathInfo ++ tarFileList)) ∧
      (∀ pathInfo path tarFileList,
        ImageInspectFileList sortSlice
            (clientOf layers "25.0.0" (before ++ entry :: after)) imageID =
          .ok (pathInfo, path) →
        getFileListFromTar entry.payload.tar = .ok tarFileList →
        ∀ r ∈ tarFileList, r.Path ∈ path)) := by
  have h24 := entryReader_blob_24 layers hex hhex entry hname
  have h25 := entryReader_blob_25 layers hex hmem entry hname
  have hfiles24 : entryFiles "24.0.0" (PluckArrayWalk layers layerBlobPath) entry = .ok [] := by
    simp [entryFiles, h24]
  refine ⟨⟨h24, by simp [entryRecords, hfiles24], ?_⟩, h25, ?_, ?_⟩
  · have := ImageInspectFileList_skip sortSlice (clientOf layers "24.0.0" []) imageID
      { Layers := layers } rfl before entry after hfiles24
    exact this
  · intro rest pathInfo tarFileList hg
    rw [walkArchive_cons]
    simp [entryFiles, h25, hg]
  · intro pathInfo path tarFileList hres hg r hr
    obtain ⟨imageInfo, out, collected, hi, hs, hw, hp, hpath⟩ :=
      ImageInspectFileList_ok sortSlice _ imageID pathInfo path hres
    have hinfo : imageInfo = { Layers := layers } := by
      simp only [clientOf, Except.ok.injEq] at hi
      exact hi.symm
    have hout : out = before ++ entry :: after := by
      simp only [clientOf, Option.some.injEq] at hs
      exact hs.symm
    subst hinfo hout
    have hrec : r ∈ entryRecords "25.0.0" (PluckArrayWalk layers layerBlobPath) entry :=
      (mem_entryRecords_iff _ _ _ _).2 ⟨_, _, h25, hg, hr⟩
    have hc : r ∈ collected := by
      rw [walkArchive_ok _ _ _ _ _ hw]
      simp only [List.nil_append, List.mem_flatMap]
      exact ⟨entry, by simp, hrec⟩
    have h1 := ((hsort collected).1.1.mem_iff (a := r)).2 hc
    have h2 := ((hsort _).2.1.mem_iff (a := r)).2 h1
    have hpn := sorted_path_eq_name sortSlice hsort _ _ _ collected hw r h2
    rw [hpath, hp, hpn, mem_dedupFrom_names]
    exact ⟨List.mem_map_of_mem _ h2, by simp⟩

/-- C6 at the digest `sha256:ab12` and the blob `blobs/sha256/ab12` put
after the two layers of the scenario: no record under version "24.0.0", the
records of the blob under version "25.0.0". -/
theorem C6_blob_path_gated_by_version_witness :
    ImageInspectFileList insertionSortSlice
        (clientOf ["sha256:ab12"] "24.0.0" (scenarioArchive ++ blobLayer :: [])) "img" =
        .ok (scenarioListing, scenarioPaths) ∧
      ImageInspectFileList insertionSortSlice
        (clientOf ["sha256:ab12"] "25.0.0" (scenarioArchive ++ blobLayer :: [])) "img" =
        .ok ([headerRecord (directory "etc"), headerRecord (directory "var"),
            headerRecord (regularFile "etc/hostname" 12),
            headerRecord (regularFile "etc/passwd" 100)],
          ["/etc", "/var", "/etc/hostname", "/etc/passwd"]) ∧
      ((entryReader "24.0.0" (PluckArrayWalk ["sha256:ab12"] layerBlobPath) blobLayer = none ∧
        entryRecords "24.0.0" (PluckArrayWalk ["sha256:ab12"] layerBlobPath) blobLayer = [] ∧
        ImageInspectFileList insertionSortSlice
            (clientOf ["sha256:ab12"] "24.0.0" (scenarioArchive ++ blobLayer :: [])) "img" =
          ImageInspectFileList insertionSortSlice
            (clientOf ["sha256:ab12"] "24.0.0" (scenarioArchive ++ [])) "img") ∧
      (entryReader "25.0.0" (PluckArrayWalk ["sha256:ab12"] layerBlobPath) blobLayer =
          some (.ok blobLayer.payload.tar) ∧
        (∀ rest pathInfo tarFileList,
          getFileListFromTar blobLayer.payload.tar = .ok tarFileList →
          walkArchive "25.0.0" (PluckArrayWalk ["sha256:ab12"] layerBlobPath)
              (blobLayer :: rest) pathInfo =
            walkArchive "25.0.0" (PluckArrayWalk ["sha256:ab12"] layerBlobPath) rest
              (pathInfo ++ tarFileList)) ∧
        (∀ pathInfo path tarFileList,
          ImageInspectFileList insertionSortSlice
              (clientOf ["sha256:ab12"] "25.0.0" (scenarioArchive ++ blobLayer :: [])) "img" =
            .ok (pathInfo, path) →
          getFileListFromTar blobLayer.payload.tar = .ok tarFileList →
          ∀ r ∈ tarFileList, r.Path ∈ path))) :=
  ⟨by decide, by decide,
    C6_blob_path_gated_by_version insertionSortSlice insertionSortSlice_spec ["sha256:ab12"]
      "ab12" "img" scenarioArchive blobLayer [] (by decide) (by decide) rfl⟩

/-- C5 fails on the code: entries named `/`, `..` and `/..` are not dropped,
each yields a record whose path is the root `/`, while `.` and `./` are
dropped. -/
theorem C5_root_record_emitted :
    (getFileListFromTar { headers := [directory "/"], ending := StreamEnd.eof }).map
        (List.map FileData.Path) = .ok ["/"] ∧
      (getFileListFromTar { headers := [directory ".."], ending := StreamEnd.eof }).map
        (List.map FileData.Path) = .ok ["/"] ∧
      (getFileListFromTar { headers := [directory "/.."], ending := StreamEnd.eof }).map
        (List.map FileData.Path) = .ok ["/"] ∧
      getFileListFromTar { headers := [directory ".", directory "./"], ending := StreamEnd.eof } =
        .ok [] ∧
      ImageInspectFileList insertionSortSlice
          (clientOf [] "24.0.0"
            [{ Name := "layer.tar", payload := tarPayload [directory "/", directory "etc"] }])
          "img" =
        .ok ([headerRecord (directory "/"), headerRecord (directory "etc")], ["/", "/etc"]) :=
  ⟨rfl, rfl, rfl, rfl, by decide⟩

/-- C7 fails on the code: the name `footgz` ends neither with `.tar.gz` nor
with `.tgz`, yet the entry is opened as a gzip stream, and the call returns
the gzip error instead of the listing it returns without the entry. -/
theorem C7_footgz_opened_as_gzip :
    stringsHasSuffix "footgz" ".tar" = false ∧
      stringsHasSuffix "footgz" ".tar.gz" = false ∧
      stringsHasSuffix "footgz" ".tgz" = false ∧
      ImageInspectFileList insertionSortSlice
          (clientOf [] "24.0.0" (scenarioArchive ++ [footgzEntry])) "img" =
        .error "gzip: invalid header" ∧
      ImageInspectFileList insertionSortSlice (clientOf [] "24.0.0" scenarioArchive) "img" =
        .ok (scenarioListing, scenarioPaths) :=
  ⟨by decide, by decide, by decide, by decide, by decide⟩

/-- C8 fails on the code: when `ImageSave` fails the error is dropped and the
code reads from the nil reader, so the call does not return an error; when
`ImageInspect` fails it does. -/
theorem C8_image_save_error_dropped
    (sortSlice : (FileData → FileData → Bool) → List FileData → List FileData) :
    (saveFailsClient.ImageSave ["img"]).2 =
        some "Error response from daemon: reference does not exist" ∧
      ImageInspectFileList sortSlice saveFailsClient "img" = Outcome.nilDeref ∧
      (∀ err, ImageInspectFileList sortSlice saveFailsClient "img" ≠ Outcome.error err) ∧
      ImageInspectFileList sortSlice inspectFailsClient "img" =
        Outcome.error "Error response from daemon: No such image: img" := by
  have h : ImageInspectFileList sortSlice saveFailsClient "img" = Outcome.nilDeref := rfl
  refine ⟨rfl, h, ?_, rfl⟩
  intro err herr
  rw [h] at herr
  cases herr

/-- C9 as stated fails: the record of a symbolic link has `IsSymlink = false`,
and the record of a hard link has a non-empty link target. -/
theorem C9_flags_counterexample :
    getFileListFromTar
        { headers := [symbolicLink "bin" "usr/bin", hardLink "usr/bin/vi" "usr/bin/vim"],
          ending := StreamEnd.eof } =
        .ok [headerRecord (symbolicLink "bin" "usr/bin"),
          headerRecord (hardLink "usr/bin/vi" "usr/bin/vim")] ∧
      (symbolicLink "bin" "usr/bin").Typeflag = TypeSymlink ∧
      (headerRecord (symbolicLink "bin" "usr/bin")).IsSymlink = false ∧
      (hardLink "usr/bin/vi" "usr/bin/vim").Typeflag ≠ TypeSymlink ∧
      (headerRecord (hardLink "usr/bin/vi" "usr/bin/vim")).LinkName = "usr/bin/vim" :=
  ⟨rfl, rfl, rfl, by decide, rfl⟩

/-- C9, amended: the records `getFileListFromTar` returns are those of the
headers whose cleaned name is not `"."`, in order; in each of them `IsDir` is
true exactly when the entry is a directory, `IsSymlink` is not true for an
entry that is not a symbolic link, and `LinkName` is the link name of the
header, so it is non-empty only when the header carries a link name. -/
theorem C9_record_flags_from_header (tarReader : TarReader) (files : List FileData)
    (h : getFileListFromTar tarReader = .ok files) :
    List.Forall₂
      (fun (header : Header) (r : FileData) =>
        (r.IsDir = true ↔ header.Typeflag = TypeDir) ∧
        (r.IsSymlink = true → header.Typeflag = TypeSymlink) ∧
        r.LinkName = header.Linkname ∧
        (r.LinkName ≠ "" → header.Linkname ≠ ""))
      (tarReader.headers.filter (fun header => decide (pathClean header.Name ≠ "."))) files := by
  obtain ⟨hfiles, -, -⟩ := loop_ok _ _ _ _ h
  rw [hfiles, List.nil_append]
  have hk : (fun header => decide (pathClean header.Name ≠ ".")) = keepsHeader := rfl
  rw [hk, List.forall₂_map_right_iff]
  apply List.forall₂_same.2
  intro x _
  refine ⟨by simp [headerRecord], ?_, rfl, fun hne => hne⟩
  intro hs
  simp [headerRecord] at hs

/-- C9, amended, at a layer with a directory, a symbolic link and a hard
link. -/
theorem C9_record_flags_from_header_witness :
    List.Forall₂
      (fun (header : Header) (r : FileData) =>
        (r.IsDir = true ↔ header.Typeflag = TypeDir) ∧
        (r.IsSymlink = true → header.Typeflag = TypeSymlink) ∧
        r.LinkName = header.Linkname ∧
        (r.LinkName ≠ "" → header.Linkname ≠ ""))
      (({ headers := [directory "./", directory "usr", symbolicLink "bin" "usr/bin",
            hardLink "usr/bin/vi" "usr/bin/vim"],
          ending := StreamEnd.eof } : TarReader).headers.filter
        (fun header => decide (pathClean header.Name ≠ ".")))
      [headerRecord (directory "usr"), headerRecord (symbolicLink "bin" "usr/bin"),
        headerRecord (hardLink "usr/bin/vi" "usr/bin/vim")] :=
  C9_record_flags_from_header
    { headers := [directory "./", directory "usr", symbolicLink "bin" "usr/bin",
        hardLink "usr/bin/vi" "usr/bin/vim"],
      ending := StreamEnd.eof } _ rfl

end Dpanel
